import Mathlib

/-!
Verification of the FileOrganizerPro core pipeline (src/FileOrganizerPro.py).

This file shallowly embeds the data model and the operations of the scanner /
classifier / remote-classifier / plan-builder / executor pipeline as pure Lean
functions, translated from the Python source, together with theorems settling
the specification claims about them.

Modelling conventions:
- Python strings are Lean `String`s; string manipulation (lowercasing,
  suffix/substring tests, token replacement) is implemented on the underlying
  `List Char` so that every definition evaluates by kernel reduction.
- `datetime` values are represented by the only projection the pipeline uses:
  the modification year, rendered in decimal exactly as `strftime('%Y')`
  renders four-digit years.
- Mutation of a `FileInfo` dataclass instance becomes a functional update;
  Python object identity between the classifier's main record list and the
  `unclassified` batch list is tracked positionally (see `mergeBack`).
- A network call that may fail is an `Option`-valued input: `none` models any
  transport / timeout / JSON-parse failure swallowed by the bare `except`.
-/

namespace FOP

/-- Models `TrustLevel` (enum) from the source. -/
inductive TrustLevel where
  | trust
  | verify
  | ignore
deriving DecidableEq

/-- Models `ClassificationSource` (enum) from the source. -/
inductive ClassificationSource where
  | keywords
  | clip
  | vision
  | llm
  | rule
  | hash
deriving DecidableEq

/-- Models `Confidence` (enum) from the source. -/
inductive Confidence where
  | high
  | medium
  | low
deriving DecidableEq

/-- Models the `FileInfo` dataclass, restricted to the fields the classifier,
plan builder and executor read or write.  `modified` is the modification year
(the only projection of the `datetime` the pipeline uses, via
`strftime('%Y')`); `gps` and `thumbnail_path` are never consumed by the
verified code and are omitted. -/
structure FileInfo where
  path : String
  name : String
  size : Nat := 0
  extension : String := ""
  modified : Nat := 2024
  destination : String := ""
  confidence : Confidence := Confidence.medium
  source : ClassificationSource := ClassificationSource.rule
  reasoning : String := ""
  keywords : List String := []
  description : String := ""
  file_hash : String := ""
  is_duplicate : Bool := false
  duplicate_of : Option String := none
  is_photo : Bool := false
deriving DecidableEq

/-- ASCII lowercasing of a string, modelling Python `str.lower()` on the
ASCII file names and keywords the pipeline handles. -/
def lowerStr (s : String) : String := ⟨s.data.map Char.toLower⟩

/-- Bool test for `pat` occurring as a contiguous sublist of `cs`; models a
successful `re.search` for a literal pattern, and the Python `in` operator
on strings. -/
def isSubList (pat : List Char) : List Char → Bool
  | [] => pat.isPrefixOf []
  | c :: rest => pat.isPrefixOf (c :: rest) || isSubList pat rest

/-- Models `a.endsWith b` / a regex match of the form `...$`. -/
def endsWithStr (s suffx : String) : Bool := suffx.data.isSuffixOf s.data

/-- Replaces every (non-overlapping, left-to-right) occurrence of `pat` by
`sub`, skipping past a matched occurrence: the `skip` argument counts
characters of a matched occurrence still to discard.  For nonempty `pat`
this is exactly Python `str.replace`. -/
def replaceAux (pat sub : List Char) : Nat → List Char → List Char
  | _, [] => []
  | skip + 1, _ :: rest => replaceAux pat sub skip rest
  | 0, c :: rest =>
    if pat.isPrefixOf (c :: rest) then
      sub ++ replaceAux pat sub (pat.length - 1) rest
    else
      c :: replaceAux pat sub 0 rest

/-- Models Python `s.replace(pat, sub)` for nonempty `pat` (the pipeline only
replaces the nonempty token string between braces in rule templates). -/
def strReplace (s pat sub : String) : String := ⟨replaceAux pat.data sub.data 0 s.data⟩

/-- Worker for `basename`: keeps the characters seen since the last
separator. -/
def basenameAux (cur : List Char) : List Char → List Char
  | [] => cur
  | c :: rest => if c = '/' then basenameAux [] rest else basenameAux (cur ++ [c]) rest

/-- Models `Path(p).name` for the slash-separated file paths the pipeline
handles: the last `/`-separated component of the path. -/
def basename (p : String) : String := ⟨basenameAux [] p.data⟩

/-- Models `file_info.modified.strftime('%Y')` (decimal rendering of the
modification year; identical to `strftime` for the four-digit years the
pipeline handles). -/
def yearOf (f : FileInfo) : String := toString f.modified

/-! ## Duplicate pre-pass: `FileClassifier._detect_duplicates` -/

/-- Recursive worker for the duplicate pre-pass.  `m` is the in-memory
`hash_map` from fingerprint to first-seen record.  A record with an empty
fingerprint (`if not file_info.file_hash: continue`) is skipped; a record
whose fingerprint is already in the map is marked duplicate referencing the
stored record's path; otherwise the record is stored as first-seen. -/
def detectDuplicatesAux : List (String × FileInfo) → List FileInfo → List FileInfo
  | _, [] => []
  | m, f :: rest =>
    if f.file_hash = "" then
      f :: detectDuplicatesAux m rest
    else
      match m.lookup f.file_hash with
      | some g => { f with is_duplicate := true, duplicate_of := some g.path }
          :: detectDuplicatesAux m rest
      | none => f :: detectDuplicatesAux ((f.file_hash, f) :: m) rest

/-- Models `FileClassifier._detect_duplicates`, iterating the scanned record
list in scan order with an initially empty fingerprint map. -/
def detectDuplicates (files : List FileInfo) : List FileInfo :=
  detectDuplicatesAux [] files

/-! ## Keyword classification: `FileClassifier._classify_from_keywords` -/

/-- The fixed `photo_categories` taxonomy, in declared (insertion) order. -/
def photoCategories : List (String × List String) :=
  [("Wildlife", ["wildlife", "bird", "eagle", "hawk", "owl", "bear", "deer", "fox", "animal"]),
   ("Weddings", ["wedding", "bride", "groom", "ceremony", "reception"]),
   ("Sports", ["sports", "racing", "football", "soccer", "basketball", "tennis"]),
   ("Portraits", ["portrait", "headshot", "people", "person", "face", "model"]),
   ("Landscapes", ["landscape", "scenery", "mountain", "beach", "sunset", "sunrise"]),
   ("Pets", ["pet", "dog", "cat", "puppy", "kitten"])]

/-- The category match test the source performs:
`any(kw in keywords for kw in category_keywords)` where `keywords` is the
LIST of lowercased record keywords — i.e. exact membership of a category
keyword among the lowercased keywords. -/
def catMatches (f : FileInfo) (cat : String × List String) : Bool :=
  cat.2.any (fun kw => (f.keywords.map lowerStr).contains kw)

/-- Models `FileClassifier._classify_from_keywords`. -/
def classifyFromKeywords (f : FileInfo) : FileInfo :=
  let kstr := String.intercalate ", " f.keywords
  match photoCategories.find? (catMatches f) with
  | some cat =>
    { f with destination := "Photos/" ++ cat.1 ++ "/" ++ yearOf f,
             confidence := Confidence.high,
             source := ClassificationSource.keywords,
             reasoning := "From keywords: " ++ kstr }
  | none =>
    { f with destination := "Photos/General/" ++ yearOf f,
             confidence := Confidence.medium,
             source := ClassificationSource.keywords,
             reasoning := "Has keywords: " ++ kstr }

/-- The category match test as the SPEC sentence describes it (claim C3):
"each category a list of case-insensitive keyword substrings" — a category
keyword matching as a substring of some lowercased record keyword.
Modelled from the spec, for comparison against `catMatches`. -/
def catMatchesSpec (f : FileInfo) (cat : String × List String) : Bool :=
  cat.2.any (fun kw => (f.keywords.map lowerStr).any (fun k => isSubList kw.data k.data))

/-- Keyword classification as the spec's words describe it (substring
matching); identical to `classifyFromKeywords` except for the match test.
Modelled from the spec, for comparison in claim C3. -/
def classifyFromKeywordsSpec (f : FileInfo) : FileInfo :=
  let kstr := String.intercalate ", " f.keywords
  match photoCategories.find? (catMatchesSpec f) with
  | some cat =>
    { f with destination := "Photos/" ++ cat.1 ++ "/" ++ yearOf f,
             confidence := Confidence.high,
             source := ClassificationSource.keywords,
             reasoning := "From keywords: " ++ kstr }
  | none =>
    { f with destination := "Photos/General/" ++ yearOf f,
             confidence := Confidence.medium,
             source := ClassificationSource.keywords,
             reasoning := "Has keywords: " ++ kstr }

/-! ## Rule table: `FileClassifier._build_rules` / `_classify_by_rules` -/

/-- A rule pattern.  The source's patterns have exactly two shapes:
`\.(alt1|alt2|...)$` — the text ends with a dot followed by one of the
literal alternatives (optional-letter groups like `docx?` are expanded) —
and a bare literal (`screenshot`) searched as a substring. -/
inductive RulePattern where
  | extAlts (alts : List String)
  | literal (s : String)

/-- One entry of the fixed ordered rule table
(`{pattern, dest, name, check_name}`). -/
structure Rule where
  pattern : RulePattern
  dest : String
  name : String
  check_name : Bool := false

/-- Models `FileClassifier._build_rules`: the fixed ordered rule list, with
each regex alternation expanded to its literal alternatives. -/
def buildRules : List Rule :=
  [{ pattern := RulePattern.extAlts ["dmg", "iso", "img"], dest := "Archives/Disk Images/{year}", name := "Disk Images" },
   { pattern := RulePattern.extAlts ["zip", "rar", "7z", "tar", "gz"], dest := "Archives/Compressed/{year}", name := "Compressed" },
   { pattern := RulePattern.extAlts ["pdf"], dest := "Documents/PDF/{year}", name := "PDF" },
   { pattern := RulePattern.extAlts ["docx", "doc", "rtf"], dest := "Documents/Word/{year}", name := "Word Docs" },
   { pattern := RulePattern.extAlts ["xlsx", "xls", "csv"], dest := "Documents/Spreadsheets/{year}", name := "Spreadsheets" },
   { pattern := RulePattern.extAlts ["pptx", "ppt", "key"], dest := "Documents/Presentations/{year}", name := "Presentations" },
   { pattern := RulePattern.extAlts ["txt", "md", "rst"], dest := "Documents/Text/{year}", name := "Text Files" },
   { pattern := RulePattern.extAlts ["py", "pyw"], dest := "Code/Python", name := "Python" },
   { pattern := RulePattern.extAlts ["js", "ts", "jsx", "tsx"], dest := "Code/JavaScript", name := "JavaScript" },
   { pattern := RulePattern.extAlts ["html", "htm", "css", "scss"], dest := "Code/Web", name := "Web" },
   { pattern := RulePattern.extAlts ["java", "kt"], dest := "Code/Java", name := "Java" },
   { pattern := RulePattern.extAlts ["c", "cpp", "h", "hpp"], dest := "Code/C++", name := "C/C++" },
   { pattern := RulePattern.extAlts ["swift", "m"], dest := "Code/Swift", name := "Swift" },
   { pattern := RulePattern.extAlts ["go"], dest := "Code/Go", name := "Go" },
   { pattern := RulePattern.extAlts ["rs"], dest := "Code/Rust", name := "Rust" },
   { pattern := RulePattern.extAlts ["sh", "bash", "zsh"], dest := "Code/Shell", name := "Shell" },
   { pattern := RulePattern.extAlts ["json", "yaml", "yml", "toml", "ini", "cfg"], dest := "Config", name := "Config" },
   { pattern := RulePattern.extAlts ["mp4", "mov", "avi", "mkv", "wmv", "flv", "webm"], dest := "Videos/{year}", name := "Videos" },
   { pattern := RulePattern.extAlts ["mp3", "wav", "flac", "aac", "ogg", "m4a"], dest := "Audio/{year}", name := "Audio" },
   { pattern := RulePattern.extAlts ["svg", "ai", "eps", "psd"], dest := "Graphics/Design/{year}", name := "Design" },
   { pattern := RulePattern.literal "screenshot", dest := "Images/Screenshots/{year}", name := "Screenshots", check_name := true },
   { pattern := RulePattern.extAlts ["app", "exe", "msi", "pkg"], dest := "Applications/{year}", name := "Applications" },
   { pattern := RulePattern.extAlts ["ttf", "otf", "woff", "woff2"], dest := "Fonts", name := "Fonts" }]

/-- Whether a rule's pattern matches the record: the matched text is
`name.lower()` for `check_name` rules and the (scanner-lowercased)
extension otherwise; `re.IGNORECASE` is modelled by lowercasing the text
against the lowercase literal alternatives. -/
def ruleMatches (f : FileInfo) (r : Rule) : Bool :=
  let text := lowerStr (if r.check_name then lowerStr f.name else f.extension)
  match r.pattern with
  | RulePattern.extAlts alts => alts.any (fun a => endsWithStr text ("." ++ a))
  | RulePattern.literal s => isSubList s.data text.data

/-- Models `FileClassifier._classify_by_rules`: the first matching rule in
table order assigns the destination (with the `{year}` token substituted),
confidence High and source Rule; returns `none` when no rule matches
(the Python method returns `False` without touching the record). -/
def classifyByRules (f : FileInfo) : Option FileInfo :=
  match buildRules.find? (ruleMatches f) with
  | some r =>
    some { f with destination := strReplace r.dest "{year}" (yearOf f),
                  confidence := Confidence.high,
                  source := ClassificationSource.rule,
                  reasoning := "Matched rule \x27" ++ r.name ++ "\x27" }
  | none => none

/-! ## Photo heuristic: `FileClassifier._classify_photo` -/

/-- The screenshot filename variants tested by `_classify_photo`. -/
def screenshotVariants : List String := ["screenshot", "screen shot", "screen_shot"]

/-- Models `FileClassifier._classify_photo`. -/
def classifyPhoto (f : FileInfo) : FileInfo :=
  if screenshotVariants.any (fun v => isSubList v.data (lowerStr f.name).data) then
    { f with destination := "Photos/Screenshots/" ++ yearOf f,
             confidence := Confidence.high,
             source := ClassificationSource.rule,
             reasoning := "Filename indicates screenshot" }
  else
    { f with destination := "Photos/Uncategorized/" ++ yearOf f,
             confidence := Confidence.low,
             source := ClassificationSource.vision,
             reasoning := "Photo file - Vision AI would classify content" }

/-! ## The per-record decision pipeline and the run loop: `FileClassifier.run` -/

/-- The classifier options consumed by `FileClassifier.run`
(`trust_level`, `use_llm`, `photo_mode`). -/
structure ClassifierOptions where
  trust_level : TrustLevel := TrustLevel.trust
  use_llm : Bool := false
  photo_mode : Bool := false

/-- One iteration of the classification loop in `FileClassifier.run`: the
layered decision pipeline applied to one record.  The second component is
true exactly when the record took the final fallback branch (the only
branch that appends to `unclassified`; the append itself is guarded by
`use_llm`, which `classifierRun` applies at the run level). -/
def classifyRecord (opts : ClassifierOptions) (f : FileInfo) : FileInfo × Bool :=
  if f.is_duplicate = true then
    ({ f with destination := "_Duplicates",
              confidence := Confidence.high,
              source := ClassificationSource.hash,
              reasoning := "Duplicate of " ++
                (match f.duplicate_of with
                 | some p => basename p
                 | none => "unknown") }, false)
  else if f.keywords ≠ [] ∧ opts.trust_level = TrustLevel.trust then
    (classifyFromKeywords f, false)
  else
    match classifyByRules f with
    | some g => (g, false)
    | none =>
      if f.is_photo = true ∧ opts.photo_mode = true then
        (classifyPhoto f, false)
      else
        ({ f with destination := "Unsorted/" ++ yearOf f,
                  confidence := Confidence.low,
                  source := ClassificationSource.rule,
                  reasoning := "No matching rule found" }, true)

/-! ## Remote fallback: `FileClassifier._classify_batch_with_llm` -/

/-- One well-formed element of the service response: a dict carrying at
least `filename` and `destination` (the fields the code requires), plus the
optional `confidence` and `reasoning` fields read with `.get`. -/
structure LlmEntry where
  filename : String
  destination : String
  confidence : Option String := none
  reasoning : Option String := none
deriving DecidableEq

/-- A parsed response array: `none` elements model entries that fail the
`isinstance(c, dict) and 'filename' in c and 'destination' in c` check and
are skipped when building `cls_map`. -/
abbrev LlmItems := List (Option LlmEntry)

/-- Models the `cls_map` lookup: the map is built by iterating the
well-formed entries in order with `cls_map[c['filename']] = c`, so a later
entry for the same filename overwrites an earlier one. -/
def clsGet (items : LlmItems) (nm : String) : Option LlmEntry :=
  (items.filterMap id).foldl (fun acc e => if e.filename = nm then some e else acc) none

/-- Models `{'high': HIGH, 'medium': MEDIUM, 'low': LOW}.get(conf_str, MEDIUM)`
applied to `c.get('confidence', 'medium').lower()`. -/
def confOfString : Option String → Confidence
  | none => Confidence.medium
  | some s =>
    if lowerStr s = "high" then Confidence.high
    else if lowerStr s = "medium" then Confidence.medium
    else if lowerStr s = "low" then Confidence.low
    else Confidence.medium

/-- The effect of one batch call of `_classify_batch_with_llm` on one record
of the batch.  `resp = none` models every failure path swallowed by the
bare `except` (transport error, timeout, JSON parse failure, non-list
response): the record is left exactly at its fallback classification. -/
def llmUpdate (resp : Option LlmItems) (f : FileInfo) : FileInfo :=
  match resp with
  | none => f
  | some items =>
    match clsGet items f.name with
    | none => f
    | some e =>
      { f with destination := e.destination,
               confidence := confOfString e.confidence,
               source := ClassificationSource.llm,
               reasoning := e.reasoning.getD "Classified by AI" }

/-- Applies the remote phase to the `unclassified` list: the record at
global index `k` belongs to batch `k / 20` (the run loop slices
`unclassified[start:start+20]`) and is updated from that batch's response. -/
def applyLlmList (responses : Nat → Option LlmItems) : Nat → List FileInfo → List FileInfo
  | _, [] => []
  | k, f :: rest => llmUpdate (responses (k / 20)) f :: applyLlmList responses (k + 1) rest

/-- The batch `unclassified[20*j : 20*j + 20]` submitted by the run loop. -/
def batchOf (uncls : List FileInfo) (j : Nat) : List FileInfo :=
  (uncls.drop (20 * j)).take 20

/-- Reflects the Python object identity between `self.files` and the
`unclassified` list: flagged records of the classified pair list are
replaced, in order, by their remotely-updated versions. -/
def mergeBack : List (FileInfo × Bool) → List FileInfo → List FileInfo
  | [], _ => []
  | (f, false) :: rest, upd => f :: mergeBack rest upd
  | (_, true) :: rest, u :: upd => u :: mergeBack rest upd
  | (f, true) :: rest, [] => f :: mergeBack rest []

/-- The `unclassified` list collected by the run loop when `use_llm` is
enabled: the records, in scan order, that took the final fallback branch. -/
def unclassifiedOf (opts : ClassifierOptions) (files : List FileInfo) : List FileInfo :=
  ((((detectDuplicates files).map (classifyRecord opts)).filter (fun p => p.2)).map (fun p => p.1))

/-- Models `FileClassifier.run` for a run without cancellation: the
duplicate pre-pass over the complete record set, then the per-record
decision pipeline, then (when `use_llm`) the batched remote phase applied
to the `unclassified` records.  `responses j` is the parsed outcome of the
service call for batch `j`. -/
def classifierRun (opts : ClassifierOptions) (files : List FileInfo)
    (responses : Nat → Option LlmItems) : List FileInfo :=
  let pairs := (detectDuplicates files).map (classifyRecord opts)
  if opts.use_llm then
    mergeBack pairs (applyLlmList responses 0 ((pairs.filter (fun p => p.2)).map (fun p => p.1)))
  else
    pairs.map (fun p => p.1)

/-! ## Executor: `FileExecutor.run` and `FileOrganizerPro._on_exec_complete` -/

/-- Models `Path(name).stem` / `Path(name).suffix`: CPython takes the LAST
dot of the name and splits there only when that dot is neither the first
nor the last character; otherwise the suffix is empty. -/
def splitExt (nm : String) : String × String :=
  let cs := nm.data
  match ((List.range cs.length).filter (fun i => cs.getD i ' ' = '.')).getLast? with
  | some i =>
    if 0 < i ∧ i + 1 < cs.length then (⟨cs.take i⟩, ⟨cs.drop i⟩) else (nm, "")
  | none => (nm, "")

/-- The `k`-th rename candidate `f"{stem}_{counter}{suffix}"` tried by the
conflict loop. -/
def candidateName (stem sfx : String) (k : Nat) : String :=
  stem ++ "_" ++ toString k ++ sfx

/-- The full candidate path `dest.parent / f"{stem}_{counter}{suffix}"`. -/
def candidatePath (parent stem sfx : String) (k : Nat) : String :=
  parent ++ "/" ++ candidateName stem sfx k

/-- The `while dest.exists()` conflict loop, starting at counter `k`.  The
filesystem is the set `ex` of existing paths; `fuel` bounds the number of
iterations modelled (the Python loop is unbounded and terminates at the
first free candidate). -/
def resolveLoop (ex : List String) (parent stem sfx : String) : Nat → Nat → String
  | 0, k => candidatePath parent stem sfx k
  | fuel + 1, k =>
    if candidatePath parent stem sfx k ∈ ex then
      resolveLoop ex parent stem sfx fuel (k + 1)
    else
      candidatePath parent stem sfx k

/-- Models the destination-conflict resolution of `FileExecutor.run` for one
move: when `dest` already exists, stem and suffix are taken from the
original destination name and `_1`, `_2`, ... are tried in turn until a
candidate does not exist. -/
def resolveDest (ex : List String) (parent nm : String) (fuel : Nat) : String :=
  if parent ++ "/" ++ nm ∈ ex then
    resolveLoop ex parent (splitExt nm).1 (splitExt nm).2 fuel 1
  else
    parent ++ "/" ++ nm

/-- One entry of `plan.moves` as the executor reads it
(`source`, `destination`, `filename`). -/
structure MoveEntry where
  source : String
  destination : String
  filename : String
deriving DecidableEq

/-- The per-move loop of `FileExecutor.run` without cancellation.  `res i`
is the outcome of the filesystem operation for move `i`: `none` for
success, `some msg` for the caught exception's message.  Returns
`(succeeded, failed, errors)` as emitted by `execution_complete`. -/
def executorRunAux (res : Nat → Option String) : Nat → List MoveEntry → Nat × Nat × List String
  | _, [] => (0, 0, [])
  | i, mv :: rest =>
    let r := executorRunAux res (i + 1) rest
    match res i with
    | none => (r.1 + 1, r.2.1, r.2.2)
    | some msg => (r.1, r.2.1 + 1, (mv.filename ++ ": " ++ msg) :: r.2.2)

/-- Models the move-processing loop of `FileExecutor.run` (folder creation
has no effect on the emitted counts and errors). -/
def executorRun (moves : List MoveEntry) (res : Nat → Option String) : Nat × Nat × List String :=
  executorRunAux res 0 moves

/-- Models the error display of `FileOrganizerPro._on_exec_complete`: the
first 10 error strings (`errors[:10]`) plus, when more were recorded, the
`...and N more` truncation note. -/
def execErrorsShown (errors : List String) : List String × Option String :=
  (errors.take 10,
   if 10 < errors.length then some ("...and " ++ toString (errors.length - 10) ++ " more") else none)

/-! ## Plan serialization: `OrganizationPlan.to_json` and
`FileOrganizerPro._create_plan` -/

/-- The JSON value tree handed to `json.dumps` by `to_json` (the image of
`asdict(plan)`); the atoms that actually occur in a plan are strings,
integers, booleans and `None`. -/
inductive Json where
  | null
  | bool (b : Bool)
  | num (n : Int)
  | str (s : String)
  | arr (elems : List Json)
  | obj (fields : List (String × Json))

/-- Models the `OrganizationPlan` dataclass.  `statistics` is the ordered
key/int dict built by `_create_plan`; each move is the ordered key/value
dict built by `_create_plan`; `options` is the options dict. -/
structure Plan where
  fopplan_version : String := "1.0"
  created_by : String := "FileOrganizerPro"
  created_at : String := ""
  fop_version : String := "2.7.1"
  source_root : String := ""
  target_root : String := ""
  action : String := "copy"
  statistics : List (String × Int) := []
  folders : List String := []
  moves : List (List (String × Json)) := []
  options : List (String × Json) := []

/-- Models `asdict(plan)` — the value `OrganizationPlan.to_json` serializes,
with the dataclass fields in declaration order.  Python's `json.dumps` /
`json.loads` pair is lossless on this fragment (finite trees with string
keys and str/int/bool/None atoms), so the string layer is modelled as the
identity on `Json` values. -/
def planToJson (p : Plan) : Json :=
  Json.obj
    [("fopplan_version", Json.str p.fopplan_version),
     ("created_by", Json.str p.created_by),
     ("created_at", Json.str p.created_at),
     ("fop_version", Json.str p.fop_version),
     ("source_root", Json.str p.source_root),
     ("target_root", Json.str p.target_root),
     ("action", Json.str p.action),
     ("statistics", Json.obj (p.statistics.map (fun kv => (kv.1, Json.num kv.2)))),
     ("folders", Json.arr (p.folders.map Json.str)),
     ("moves", Json.arr (p.moves.map Json.obj)),
     ("options", Json.obj p.options)]

/-- Key lookup in a reparsed JSON object (`loaded['key']`). -/
def jGet : Json → String → Option Json
  | Json.obj fs, k => fs.lookup k
  | _, _ => none

/-- Reads a reparsed JSON value back as a string. -/
def jStr : Json → Option String
  | Json.str s => some s
  | _ => none

/-- Reads a reparsed JSON value back as an integer. -/
def jInt : Json → Option Int
  | Json.num n => some n
  | _ => none

/-- Reads a reparsed JSON value back as an object (dict). -/
def jObj : Json → Option (List (String × Json))
  | Json.obj fs => some fs
  | _ => none

/-- Decodes every element of a reparsed JSON array, failing if any element
fails. -/
def decodeList (dec : Json → Option α) : List Json → Option (List α)
  | [] => some []
  | j :: rest =>
    match dec j with
    | none => none
    | some a => (decodeList dec rest).map (fun l => a :: l)

/-- The set of moves a reader recovers from the reparsed plan JSON. -/
def movesOfJson (j : Json) : Option (List (List (String × Json))) :=
  match jGet j "moves" with
  | some (Json.arr l) => decodeList jObj l
  | _ => none

/-- The folder list a reader recovers from the reparsed plan JSON. -/
def foldersOfJson (j : Json) : Option (List String) :=
  match jGet j "folders" with
  | some (Json.arr l) => decodeList jStr l
  | _ => none

/-- Decodes the entries of a reparsed statistics dict, failing if any value
is not an integer. -/
def decodeStatPairs : List (String × Json) → Option (List (String × Int))
  | [] => some []
  | (k, v) :: rest =>
    match jInt v with
    | none => none
    | some n => (decodeStatPairs rest).map (fun l => (k, n) :: l)

/-- The statistics a reader recovers from the reparsed plan JSON. -/
def statisticsOfJson (j : Json) : Option (List (String × Int)) :=
  match jGet j "statistics" with
  | some (Json.obj fs) => decodeStatPairs fs
  | _ => none

/-- The string value of a `Confidence` (`confidence.value`). -/
def confValue : Confidence → String
  | Confidence.high => "high"
  | Confidence.medium => "medium"
  | Confidence.low => "low"

/-- The string value of a `ClassificationSource` (`source.value`). -/
def sourceValue : ClassificationSource → String
  | ClassificationSource.keywords => "keywords"
  | ClassificationSource.clip => "clip"
  | ClassificationSource.vision => "vision"
  | ClassificationSource.llm => "llm"
  | ClassificationSource.rule => "rule"
  | ClassificationSource.hash => "hash"

/-- The move dict `_create_plan` builds from one record (`file_hash` is
included only when nonempty). -/
def moveDict (f : FileInfo) : List (String × Json) :=
  [("source", Json.str f.path),
   ("destination", Json.str (if f.destination = "" then f.name else f.destination ++ "/" ++ f.name)),
   ("filename", Json.str f.name),
   ("size_bytes", Json.num f.size),
   ("confidence", Json.str (confValue f.confidence)),
   ("classification_source", Json.str (sourceValue f.source)),
   ("reasoning", Json.str f.reasoning),
   ("is_duplicate", Json.bool f.is_duplicate),
   ("duplicate_of", match f.duplicate_of with
                    | some p => Json.str p
                    | none => Json.null)] ++
  (if f.file_hash = "" then [] else [("file_hash", Json.str f.file_hash)])

/-- Models `FileOrganizerPro._create_plan`.  `list(set(...))` for the folder
list is modelled by first-occurrence deduplication (the Python set fixes no
iteration order; _create_plan computes the same underlying set). -/
def createPlan (files : List FileInfo) (sourceRoot targetInput action createdAt trustLevel : String) : Plan :=
  { created_at := createdAt,
    source_root := sourceRoot,
    target_root := if targetInput = "" then sourceRoot ++ "_Organized" else targetInput,
    action := action,
    statistics :=
      [("total_files", (files.length : Int)),
       ("total_size_bytes", ((files.map (fun f => f.size)).sum : Int)),
       ("folders_to_create", ((((files.map (fun f => f.destination)).filter (fun d => d ≠ "")).dedup).length : Int)),
       ("duplicates_flagged", ((files.filter (fun f => f.is_duplicate)).length : Int))],
    folders := ((files.map (fun f => f.destination)).filter (fun d => d ≠ "")).dedup,
    moves := files.map moveDict,
    options :=
      [("action", Json.str action),
       ("handle_duplicates", Json.str "move_to_duplicates_folder"),
       ("create_folders", Json.bool true),
       ("on_conflict", Json.str "rename"),
       ("trust_level", Json.str trustLevel)] }

/-! ## Helper lemmas -/

lemma decodeList_obj_map (l : List (List (String × Json))) :
    decodeList jObj (l.map Json.obj) = some l := by
  induction l with
  | nil => rfl
  | cons x xs ih => simp [decodeList, jObj, ih]

lemma decodeList_str_map (l : List String) :
    decodeList jStr (l.map Json.str) = some l := by
  induction l with
  | nil => rfl
  | cons x xs ih => simp [decodeList, jStr, ih]

lemma decodeStatPairs_map (l : List (String × Int)) :
    decodeStatPairs (l.map (fun kv => (kv.1, Json.num kv.2))) = some l := by
  induction l with
  | nil => rfl
  | cons x xs ih => simp [decodeStatPairs, jInt, ih]

lemma executorRunAux_eq (res : Nat → Option String) (ms : List MoveEntry) : ∀ i : Nat,
    executorRunAux res i ms =
      (((ms.enumFrom i).filter (fun p => (res p.1).isNone)).length,
       ((ms.enumFrom i).filter (fun p => (res p.1).isSome)).length,
       (ms.enumFrom i).filterMap (fun p => (res p.1).map (fun m => p.2.filename ++ ": " ++ m))) := by
  induction ms with
  | nil => intro i; rfl
  | cons mv rest ih =>
    intro i
    simp only [executorRunAux, ih (i + 1), List.enumFrom]
    cases h : res i <;> simp [h, List.filter, List.filterMap]

lemma length_filter_none_add_some (res : Nat → Option String) (l : List (Nat × MoveEntry)) :
    (l.filter (fun p => (res p.1).isNone)).length +
      (l.filter (fun p => (res p.1).isSome)).length = l.length := by
  induction l with
  | nil => rfl
  | cons x xs ih => cases h : res x.1 <;> simp [List.filter, h, ih] <;> omega

lemma length_filterMap_err (res : Nat → Option String) (l : List (Nat × MoveEntry)) :
    (l.filterMap (fun p => (res p.1).map (fun m => p.2.filename ++ ": " ++ m))).length =
      (l.filter (fun p => (res p.1).isSome)).length := by
  induction l with
  | nil => rfl
  | cons x xs ih => cases h : res x.1 <;> simp [List.filter, List.filterMap, h, ih]

lemma detectDuplicatesAux_length :
    ∀ (l : List FileInfo) (m : List (String × FileInfo)),
      (detectDuplicatesAux m l).length = l.length := by
  intro l
  induction l with
  | nil => intro m; rfl
  | cons f rest ih =>
    intro m
    by_cases hf : f.file_hash = ""
    · simp [detectDuplicatesAux, hf, ih]
    · cases hl : m.lookup f.file_hash with
      | some g => simp [detectDuplicatesAux, hf, hl, ih]
      | none => simp [detectDuplicatesAux, hf, hl, ih]

lemma detectDuplicates_length (l : List FileInfo) :
    (detectDuplicates l).length = l.length :=
  detectDuplicatesAux_length l []

lemma find?_singleton_ne (f : FileInfo) (h : String) (hne : ¬ f.file_hash = h) :
    List.find? (fun g => g.file_hash == h) [f] = none := by
  have hb : (f.file_hash == h) = false := by simpa using hne
  simp [List.find?, hb]

/-- The per-record effect of the duplicate pre-pass, given the records seen
earlier (`ctx`). -/
def dupResult (ctx : List FileInfo) (f : FileInfo) : FileInfo :=
  if f.file_hash = "" then f
  else
    match ctx.find? (fun g => g.file_hash == f.file_hash) with
    | some g => { f with is_duplicate := true, duplicate_of := some g.path }
    | none => f

lemma detectDuplicatesAux_get? :
    ∀ (l : List FileInfo) (m : List (String × FileInfo)) (pre : List FileInfo),
      (∀ h : String, h ≠ "" → m.lookup h = pre.find? (fun g => g.file_hash == h)) →
      ∀ (i : Nat) (f0 : FileInfo), l.get? i = some f0 →
        (detectDuplicatesAux m l).get? i = some (dupResult (pre ++ l.take i) f0) := by
  intro l
  induction l with
  | nil =>
    intro m pre hinv i f0 hget
    simp at hget
  | cons f rest ih =>
    intro m pre hinv i f0 hget
    by_cases hf : f.file_hash = ""
    · have hstep : detectDuplicatesAux m (f :: rest) = f :: detectDuplicatesAux m rest := by
        simp [detectDuplicatesAux, hf]
      match i with
      | 0 =>
        have hf0 : f0 = f := by simpa using hget.symm
        subst hf0
        simp [hstep, dupResult, hf]
      | j + 1 =>
        have hget' : rest.get? j = some f0 := by simpa using hget
        have hinv' : ∀ h : String, h ≠ "" →
            m.lookup h = (pre ++ [f]).find? (fun g => g.file_hash == h) := by
          intro h hne
          rw [List.find?_append, find?_singleton_ne f h (by rw [hf]; exact fun e => hne e.symm)]
          simpa using hinv h hne
        have hrec := ih m (pre ++ [f]) hinv' j f0 hget'
        simp only [hstep, List.get?_cons_succ, List.take_succ_cons]
        rw [hrec, List.append_assoc]
        rfl
    · have hm := hinv f.file_hash hf
      cases hfind : pre.find? (fun g => g.file_hash == f.file_hash) with
      | some g =>
        rw [hfind] at hm
        have hstep : detectDuplicatesAux m (f :: rest) =
            { f with is_duplicate := true, duplicate_of := some g.path }
              :: detectDuplicatesAux m rest := by
          simp [detectDuplicatesAux, hf, hm]
        match i with
        | 0 =>
          have hf0 : f0 = f := by simpa using hget.symm
          subst hf0
          simp [hstep, dupResult, hf, hfind]
        | j + 1 =>
          have hget' : rest.get? j = some f0 := by simpa using hget
          have hinv' : ∀ h : String, h ≠ "" →
              m.lookup h = (pre ++ [f]).find? (fun g => g.file_hash == h) := by
            intro h hne
            rw [List.find?_append]
            by_cases hfh : f.file_hash = h
            · subst hfh
              rw [hinv f.file_hash hne, hfind]
              rfl
            · rw [find?_singleton_ne f h hfh]
              simpa using hinv h hne
          have hrec := ih m (pre ++ [f]) hinv' j f0 hget'
          simp only [hstep, List.get?_cons_succ, List.take_succ_cons]
          rw [hrec, List.append_assoc]
          rfl
      | none =>
        rw [hfind] at hm
        have hstep : detectDuplicatesAux m (f :: rest) =
            f :: detectDuplicatesAux ((f.file_hash, f) :: m) rest := by
          simp [detectDuplicatesAux, hf, hm]
        match i with
        | 0 =>
          have hf0 : f0 = f := by simpa using hget.symm
          subst hf0
          simp [hstep, dupResult, hf, hfind]
        | j + 1 =>
          have hget' : rest.get? j = some f0 := by simpa using hget
          have hinv' : ∀ h : String, h ≠ "" →
              ((f.file_hash, f) :: m).lookup h =
                (pre ++ [f]).find? (fun g => g.file_hash == h) := by
            intro h hne
            rw [List.find?_append]
            by_cases hfh : f.file_hash = h
            · subst hfh
              rw [hfind]
              have hb : (f.file_hash == f.file_hash) = true := by simp
              simp [List.lookup, List.find?, hb]
            · rw [find?_singleton_ne f h hfh]
              have hb : (h == f.file_hash) = false := by
                simp
                exact fun e => hfh e.symm
              have hlk : ((f.file_hash, f) :: m).lookup h = m.lookup h := by
                simp [List.lookup, hb]
              rw [hlk]
              simpa using hinv h hne
          have hrec := ih ((f.file_hash, f) :: m) (pre ++ [f]) hinv' j f0 hget'
          simp only [hstep, List.get?_cons_succ, List.take_succ_cons]
          rw [hrec, List.append_assoc]
          rfl

/-- The duplicate pre-pass acts on each record exactly as `dupResult` with
the records earlier in scan order as context. -/
lemma detectDuplicates_get? (l : List FileInfo) (i : Nat) (f0 : FileInfo)
    (hget : l.get? i = some f0) :
    (detectDuplicates l).get? i = some (dupResult (l.take i) f0) := by
  have h := detectDuplicatesAux_get? l [] [] (by intro h hne; rfl) i f0 hget
  simpa [detectDuplicates] using h

lemma mem_take_idx {α : Type} (l : List α) (n : Nat) (x : α) (hx : x ∈ l.take n) :
    ∃ (j : Nat) (hj : j < l.length), j < n ∧ l.get ⟨j, hj⟩ = x := by
  obtain ⟨⟨k, hk⟩, hget⟩ := List.mem_iff_get.mp hx
  have hk' : k < n ⊓ l.length := by simpa [List.length_take] using hk
  have h1 := lt_min_iff.mp hk'
  refine ⟨k, h1.2, h1.1, ?_⟩
  rw [← hget]
  simp [List.get_eq_getElem, List.getElem_take]

lemma find?_eq_get_of_first {α : Type} (p : α → Bool) :
    ∀ (l : List α) (k : Nat) (hk : k < l.length),
      p (l.get ⟨k, hk⟩) = true →
      (∀ (j : Nat) (hj : j < l.length), j < k → p (l.get ⟨j, hj⟩) = false) →
      l.find? p = some (l.get ⟨k, hk⟩) := by
  intro l
  induction l with
  | nil => intro k hk _ _; simp at hk
  | cons x xs ih =>
    intro k hk hp hmin
    match k with
    | 0 =>
      have hx : p x = true := by simpa using hp
      simpa using List.find?_cons_of_pos xs hx
    | j + 1 =>
      have hx : p x = false := by
        have := hmin 0 (by simp) (by omega)
        simpa using this
      rw [List.find?_cons_of_neg xs (by simp [hx])]
      have hj : j < xs.length := by simpa using hk
      have hp' : p (xs.get ⟨j, hj⟩) = true := by
        simpa [List.get_eq_getElem] using hp
      have hmin' : ∀ (j2 : Nat) (hj2 : j2 < xs.length), j2 < j → p (xs.get ⟨j2, hj2⟩) = false := by
        intro j2 hj2 hlt
        have := hmin (j2 + 1) (by simpa using Nat.succ_lt_succ hj2) (by omega)
        simpa [List.get_eq_getElem] using this
      simpa [List.get_eq_getElem] using ih j hj hp' hmin'

/-! ## Claim theorems -/

/-- C1: within one duplicate pre-pass over the scanned record list, for a
record with a fingerprint (non-empty `file_hash`): if no earlier record in
scan order shares its fingerprint it stays canonical (unmarked), and if
some earlier record shares it then — taking the first such record in scan
order — the later record is marked duplicate with `duplicate_of` set to
that canonical record's path. -/
theorem C1_duplicate_prepass (l : List FileInfo)
    (hclean : ∀ f ∈ l, f.is_duplicate = false)
    (i : Nat) (hi : i < l.length)
    (hne : (l.get ⟨i, hi⟩).file_hash ≠ "") :
    ((∀ (j : Nat) (hj : j < l.length), j < i →
        (l.get ⟨j, hj⟩).file_hash ≠ (l.get ⟨i, hi⟩).file_hash) →
      ((detectDuplicates l).get
        ⟨i, by rw [detectDuplicates_length]; exact hi⟩).is_duplicate = false) ∧
    (∀ (i₀ : Nat) (h0 : i₀ < l.length), i₀ < i →
      (l.get ⟨i₀, h0⟩).file_hash = (l.get ⟨i, hi⟩).file_hash →
      (∀ (j : Nat) (hj : j < l.length), j < i₀ →
        (l.get ⟨j, hj⟩).file_hash ≠ (l.get ⟨i, hi⟩).file_hash) →
      ((detectDuplicates l).get
          ⟨i, by rw [detectDuplicates_length]; exact hi⟩).is_duplicate = true ∧
      ((detectDuplicates l).get
          ⟨i, by rw [detectDuplicates_length]; exact hi⟩).duplicate_of =
        some (l.get ⟨i₀, h0⟩).path) := by
  have hlen : i < (detectDuplicates l).length := by rw [detectDuplicates_length]; exact hi
  have hget : l.get? i = some (l.get ⟨i, hi⟩) := List.get?_eq_get hi
  have hchar := detectDuplicates_get? l i (l.get ⟨i, hi⟩) hget
  have hgetD : (detectDuplicates l).get ⟨i, hlen⟩ = dupResult (l.take i) (l.get ⟨i, hi⟩) := by
    have h2 : (detectDuplicates l).get? i = some ((detectDuplicates l).get ⟨i, hlen⟩) :=
      List.get?_eq_get hlen
    rw [hchar] at h2
    exact (Option.some.inj h2).symm
  constructor
  · intro hfirst
    have hnone : (l.take i).find?
        (fun g => g.file_hash == (l.get ⟨i, hi⟩).file_hash) = none := by
      rw [List.find?_eq_none]
      intro x hx
      obtain ⟨j, hj, hjlt, hjx⟩ := mem_take_idx l i x hx
      subst hjx
      simpa using hfirst j hj hjlt
    rw [hgetD]
    unfold dupResult
    rw [if_neg hne, hnone]
    exact hclean _ (List.get_mem l i hi)
  · intro i₀ h0 hlt heq hmin
    have hi0 : i₀ < (l.take i).length := by
      rw [List.length_take]
      exact lt_min_iff.mpr ⟨hlt, h0⟩
    have hgt : (l.take i).get ⟨i₀, hi0⟩ = l.get ⟨i₀, h0⟩ := by
      simp [List.get_eq_getElem, List.getElem_take]
    have hsome : (l.take i).find?
        (fun g => g.file_hash == (l.get ⟨i, hi⟩).file_hash) = some (l.get ⟨i₀, h0⟩) := by
      rw [← hgt]
      apply find?_eq_get_of_first
      · rw [hgt]
        simpa using heq
      · intro j hj hjlt
        have hjl : j < l.length := by
          have := hi0
          rw [List.length_take] at this
          have h3 := lt_min_iff.mp this
          omega
        have hgtj : (l.take i).get ⟨j, hj⟩ = l.get ⟨j, hjl⟩ := by
          simp [List.get_eq_getElem, List.getElem_take]
        rw [hgtj]
        simpa using hmin j hjl hjlt
    rw [hgetD]
    unfold dupResult
    rw [if_neg hne, hsome]
    exact ⟨rfl, rfl⟩

/-- C9: for every built OrganizationPlan, serializing it to JSON and
reparsing that JSON yields an equal list of moves, an equal list of
folders, and equal statistics — the round trip loses no plan content.
(Proved for every `Plan` value, hence in particular for every plan built by
`createPlan`.) -/
theorem C9_plan_json_roundtrip (p : Plan) :
    movesOfJson (planToJson p) = some p.moves ∧
    foldersOfJson (planToJson p) = some p.folders ∧
    statisticsOfJson (planToJson p) = some p.statistics := by
  refine ⟨?_, ?_, ?_⟩
  · have h : jGet (planToJson p) "moves" = some (Json.arr (p.moves.map Json.obj)) := rfl
    simp [movesOfJson, h, decodeList_obj_map]
  · have h : jGet (planToJson p) "folders" = some (Json.arr (p.folders.map Json.str)) := rfl
    simp [foldersOfJson, h, decodeList_str_map]
  · have h : jGet (planToJson p) "statistics" =
        some (Json.obj (p.statistics.map (fun kv => (kv.1, Json.num kv.2)))) := rfl
    simp [statisticsOfJson, h, decodeStatPairs_map]

/-- C8: for every plan execution without cancellation, every move is
processed even when some fail — the succeeded and failed counts sum to the
number of moves processed; each failing move is recorded, in order, as
`"<filename>: <message>"` and no exception aborts the batch (the run is a
total function of the per-move outcomes); the completion dialog shows only
the first 10 error strings and adds a truncation note exactly when more
than 10 were recorded. -/
theorem C8_executor_never_aborts (moves : List MoveEntry) (res : Nat → Option String) :
    (executorRun moves res).1 + (executorRun moves res).2.1 = moves.length ∧
    (executorRun moves res).2.2 =
      (moves.enumFrom 0).filterMap
        (fun p => (res p.1).map (fun m => p.2.filename ++ ": " ++ m)) ∧
    (executorRun moves res).2.2.length = (executorRun moves res).2.1 ∧
    (execErrorsShown (executorRun moves res).2.2).1 = (executorRun moves res).2.2.take 10 ∧
    ((execErrorsShown (executorRun moves res).2.2).2.isSome ↔
      10 < (executorRun moves res).2.2.length) := by
  have h := executorRunAux_eq res moves 0
  refine ⟨?_, ?_, ?_, rfl, ?_⟩
  · unfold executorRun
    rw [h]
    have := length_filter_none_add_some res (moves.enumFrom 0)
    simpa using this
  · unfold executorRun
    rw [h]
  · unfold executorRun
    rw [h]
    exact length_filterMap_err res (moves.enumFrom 0)
  · unfold execErrorsShown
    split <;> simp_all

/-- A two-record scan with identical fingerprints, for exercising the
duplicate pre-pass. -/
def demoScan : List FileInfo :=
  [{ path := "/src/photo1.jpg", name := "photo1.jpg", file_hash := "h1" },
   { path := "/src/photo1_copy.jpg", name := "photo1_copy.jpg", file_hash := "h1" }]

/-- Witness for C1: in `demoScan` the second record, sharing the first's
fingerprint, is marked duplicate referencing the first record's path. -/
theorem C1_duplicate_prepass_witness :
    ((detectDuplicates demoScan).get ⟨1, by decide⟩).is_duplicate = true ∧
    ((detectDuplicates demoScan).get ⟨1, by decide⟩).duplicate_of = some "/src/photo1.jpg" :=
  (C1_duplicate_prepass demoScan (by decide) 1 (by decide) (by decide)).2
    0 (by decide) (by decide) (by decide) (by decide)

/-- C10: a record whose fingerprint is the empty string (hashing failed or
duplicate detection disabled) passes through the duplicate pre-pass
unchanged — it is never marked duplicate — and every record the pre-pass
does mark references an earlier record with the SAME non-empty
fingerprint, so two records that both failed to hash are never reported as
duplicates of each other. -/
theorem C10_empty_fingerprint_not_duplicate (l : List FileInfo)
    (i : Nat) (hi : i < l.length)
    (hhash : (l.get ⟨i, hi⟩).file_hash = "") :
    (detectDuplicates l).get ⟨i, by rw [detectDuplicates_length]; exact hi⟩ = l.get ⟨i, hi⟩ ∧
    (∀ (j : Nat) (hj : j < l.length),
      ((detectDuplicates l).get ⟨j, by rw [detectDuplicates_length]; exact hj⟩).is_duplicate = true →
      (l.get ⟨j, hj⟩).is_duplicate = true ∨
      ((l.get ⟨j, hj⟩).file_hash ≠ "" ∧
       ∃ (i₀ : Nat) (h0 : i₀ < l.length), i₀ < j ∧
         (l.get ⟨i₀, h0⟩).file_hash = (l.get ⟨j, hj⟩).file_hash ∧
         ((detectDuplicates l).get
             ⟨j, by rw [detectDuplicates_length]; exact hj⟩).duplicate_of =
           some (l.get ⟨i₀, h0⟩).path)) := by
  have hgetD : ∀ (j : Nat) (hj : j < l.length),
      (detectDuplicates l).get ⟨j, by rw [detectDuplicates_length]; exact hj⟩ =
        dupResult (l.take j) (l.get ⟨j, hj⟩) := by
    intro j hj
    have hlenj : j < (detectDuplicates l).length := by rw [detectDuplicates_length]; exact hj
    have h2 : (detectDuplicates l).get? j = some ((detectDuplicates l).get ⟨j, hlenj⟩) :=
      List.get?_eq_get hlenj
    rw [detectDuplicates_get? l j (l.get ⟨j, hj⟩) (List.get?_eq_get hj)] at h2
    exact (Option.some.inj h2).symm
  constructor
  · rw [hgetD i hi]
    unfold dupResult
    rw [if_pos hhash]
  · intro j hj hdup
    rw [hgetD j hj] at hdup ⊢
    unfold dupResult at hdup ⊢
    by_cases hje : (l.get ⟨j, hj⟩).file_hash = ""
    · rw [if_pos hje] at hdup
      exact Or.inl hdup
    · rw [if_neg hje] at hdup ⊢
      cases hfind : (l.take j).find? (fun g => g.file_hash == (l.get ⟨j, hj⟩).file_hash) with
      | none =>
        rw [hfind] at hdup
        exact Or.inl hdup
      | some g =>
        refine Or.inr ⟨hje, ?_⟩
        have hmem : g ∈ l.take j := List.mem_of_find?_eq_some hfind
        have hpg := List.find?_some hfind
        obtain ⟨i₀, h0, hlt, hgi⟩ := mem_take_idx l j g hmem
        refine ⟨i₀, h0, hlt, ?_, ?_⟩
        · rw [hgi]
          simpa using hpg
        · simp only [hfind, hgi]

/-- A scan in which both records failed to hash (empty fingerprint). -/
def demoScanNoHash : List FileInfo :=
  [{ path := "/src/a.bin", name := "a.bin", file_hash := "" },
   { path := "/src/b.bin", name := "b.bin", file_hash := "" }]

/-- Witness for C10: the second of two records that both failed to hash
passes through the pre-pass unchanged — in particular it is not reported
as a duplicate of the first. -/
theorem C10_empty_fingerprint_not_duplicate_witness :
    (detectDuplicates demoScanNoHash).get ⟨1, by decide⟩ = demoScanNoHash.get ⟨1, by decide⟩ :=
  (C10_empty_fingerprint_not_duplicate demoScanNoHash 1 (by decide) (by decide)).1

lemma classifyFromKeywords_is_dup (f : FileInfo) :
    (classifyFromKeywords f).is_duplicate = f.is_duplicate := by
  simp only [classifyFromKeywords]
  cases photoCategories.find? (catMatches f) <;> rfl

lemma classifyByRules_is_dup (f g : FileInfo) (h : classifyByRules f = some g) :
    g.is_duplicate = f.is_duplicate := by
  unfold classifyByRules at h
  cases hr : buildRules.find? (ruleMatches f) with
  | none => rw [hr] at h; cases h
  | some r =>
    rw [hr] at h
    cases h
    rfl

lemma classifyPhoto_is_dup (f : FileInfo) :
    (classifyPhoto f).is_duplicate = f.is_duplicate := by
  unfold classifyPhoto
  split <;> rfl

lemma classifyRecord_dup_eq (opts : ClassifierOptions) (f : FileInfo)
    (hd : f.is_duplicate = true) :
    classifyRecord opts f =
      ({ f with destination := "_Duplicates",
                confidence := Confidence.high,
                source := ClassificationSource.hash,
                reasoning := "Duplicate of " ++
                  (match f.duplicate_of with
                   | some p => basename p
                   | none => "unknown") }, false) := by
  unfold classifyRecord
  rw [if_pos hd]

lemma classifyRecord_preserve_not_dup (opts : ClassifierOptions) (f : FileInfo)
    (hd : f.is_duplicate = false) :
    (classifyRecord opts f).1.is_duplicate = false := by
  unfold classifyRecord
  rw [if_neg (by simp [hd])]
  split
  · exact (classifyFromKeywords_is_dup f).trans hd
  · cases hr : classifyByRules f with
    | some g =>
      simp only [hr]
      exact (classifyByRules_is_dup f g hr).trans hd
    | none =>
      simp only [hr]
      split
      · exact (classifyPhoto_is_dup f).trans hd
      · simpa using hd

lemma classifyRecord_dup_source (opts : ClassifierOptions) (f : FileInfo)
    (h : (classifyRecord opts f).1.is_duplicate = true) : f.is_duplicate = true := by
  by_contra hd
  rw [classifyRecord_preserve_not_dup opts f (by simpa using hd)] at h
  cases h

lemma classifyRecord_dup (opts : ClassifierOptions) (f : FileInfo)
    (hdup : (classifyRecord opts f).1.is_duplicate = true) :
    (classifyRecord opts f).1.destination = "_Duplicates" ∧
    (classifyRecord opts f).1.confidence = Confidence.high ∧
    (classifyRecord opts f).1.source = ClassificationSource.hash := by
  rw [classifyRecord_dup_eq opts f (classifyRecord_dup_source opts f hdup)]
  exact ⟨rfl, rfl, rfl⟩

lemma classifyRecord_flag (opts : ClassifierOptions) (f : FileInfo)
    (hflag : (classifyRecord opts f).2 = true) :
    (classifyRecord opts f).1.is_duplicate = false := by
  by_cases hd : f.is_duplicate = true
  · rw [classifyRecord_dup_eq opts f hd] at hflag
    cases hflag
  · exact classifyRecord_preserve_not_dup opts f (by simpa using hd)

lemma llmUpdate_is_dup (resp : Option LlmItems) (f : FileInfo) :
    (llmUpdate resp f).is_duplicate = f.is_duplicate := by
  cases resp with
  | none => rfl
  | some items =>
    simp only [llmUpdate]
    cases hcg : clsGet items f.name <;> simp [hcg]

lemma mergeBack_mem :
    ∀ (pairs : List (FileInfo × Bool)) (upd : List FileInfo) (g : FileInfo),
      g ∈ mergeBack pairs upd → (∃ p ∈ pairs, g = p.1) ∨ g ∈ upd := by
  intro pairs
  induction pairs with
  | nil =>
    intro upd g h
    simp [mergeBack] at h
  | cons p rest ih =>
    intro upd g h
    match p, upd with
    | (f, false), upd =>
      rcases List.mem_cons.mp h with rfl | h2
      · exact Or.inl ⟨(g, false), List.mem_cons_self _ _, rfl⟩
      · rcases ih upd g h2 with ⟨q, hq, rfl⟩ | hu
        · exact Or.inl ⟨q, List.mem_cons_of_mem _ hq, rfl⟩
        · exact Or.inr hu
    | (f, true), [] =>
      rcases List.mem_cons.mp h with rfl | h2
      · exact Or.inl ⟨(g, true), List.mem_cons_self _ _, rfl⟩
      · rcases ih [] g h2 with ⟨q, hq, rfl⟩ | hu
        · exact Or.inl ⟨q, List.mem_cons_of_mem _ hq, rfl⟩
        · exact Or.inr hu
    | (f, true), u :: us =>
      rcases List.mem_cons.mp h with rfl | h2
      · exact Or.inr (List.mem_cons_self _ _)
      · rcases ih us g h2 with ⟨q, hq, rfl⟩ | hu
        · exact Or.inl ⟨q, List.mem_cons_of_mem _ hq, rfl⟩
        · exact Or.inr (List.mem_cons_of_mem _ hu)

lemma applyLlmList_mem :
    ∀ (l : List FileInfo) (r : Nat → Option LlmItems) (k : Nat) (g : FileInfo),
      g ∈ applyLlmList r k l → ∃ f ∈ l, ∃ j, g = llmUpdate (r j) f := by
  intro l
  induction l with
  | nil =>
    intro r k g h
    simp [applyLlmList] at h
  | cons f rest ih =>
    intro r k g h
    rcases List.mem_cons.mp h with rfl | h2
    · exact ⟨f, List.mem_cons_self _ _, k / 20, rfl⟩
    · obtain ⟨f2, hf2, j, rfl⟩ := ih r (k + 1) g h2
      exact ⟨f2, List.mem_cons_of_mem _ hf2, j, rfl⟩

/-- C2: every record of the classifier's output that carries
`duplicate = true` has destination `_Duplicates`, confidence High and
classification source Hash — after the per-record pipeline, and preserved
by the remote-classification phase (duplicates are never in the
remote batch, and the remote phase never sets the duplicate flag). -/
theorem C2_duplicate_destination_invariant (opts : ClassifierOptions)
    (files : List FileInfo) (responses : Nat → Option LlmItems) (g : FileInfo)
    (hg : g ∈ classifierRun opts files responses)
    (hdup : g.is_duplicate = true) :
    g.destination = "_Duplicates" ∧ g.confidence = Confidence.high ∧
    g.source = ClassificationSource.hash := by
  unfold classifierRun at hg
  by_cases hllm : opts.use_llm = true
  · simp only [hllm, if_true] at hg
    rcases mergeBack_mem _ _ _ hg with ⟨p, hp, rfl⟩ | hupd
    · obtain ⟨f, _, rfl⟩ := List.mem_map.mp hp
      exact classifyRecord_dup opts f hdup
    · obtain ⟨f, hf, j, rfl⟩ := applyLlmList_mem _ _ _ _ hupd
      rw [llmUpdate_is_dup] at hdup
      obtain ⟨p, hpmem, rfl⟩ := List.mem_map.mp hf
      have hfl := List.mem_filter.mp hpmem
      obtain ⟨f0, _, rfl⟩ := List.mem_map.mp hfl.1
      have := classifyRecord_flag opts f0 (by simpa using hfl.2)
      rw [this] at hdup
      cases hdup
  · simp only [hllm, if_false, Bool.false_eq_true] at hg
    obtain ⟨p, hp, rfl⟩ := List.mem_map.mp hg
    obtain ⟨f, _, rfl⟩ := List.mem_map.mp hp
    exact classifyRecord_dup opts f hdup

/-- Options for a concrete classifier run with the remote phase enabled. -/
def demoOpts : ClassifierOptions :=
  { trust_level := TrustLevel.trust, use_llm := true, photo_mode := false }

/-- A concrete service response that even names the duplicate record's
filename — the duplicate must keep its quarantine classification. -/
def demoResponses : Nat → Option LlmItems := fun _ =>
  some [some { filename := "photo1_copy.jpg", destination := "Photos/X",
               confidence := some "high", reasoning := some "r" }]

/-- The duplicate record as it appears in the output of the concrete run. -/
def demoDupOut : FileInfo :=
  { path := "/src/photo1_copy.jpg", name := "photo1_copy.jpg", file_hash := "h1",
    destination := "_Duplicates", confidence := Confidence.high,
    source := ClassificationSource.hash, reasoning := "Duplicate of photo1.jpg",
    is_duplicate := true, duplicate_of := some "/src/photo1.jpg" }

/-- The non-duplicate record as it appears in the output of the concrete
run (fallback classification kept: its filename is absent from the
response). -/
def demoUnsortedOut : FileInfo :=
  { path := "/src/photo1.jpg", name := "photo1.jpg", file_hash := "h1",
    destination := "Unsorted/2024", confidence := Confidence.low,
    source := ClassificationSource.rule, reasoning := "No matching rule found" }

/-- Witness for C2: in a concrete run (remote phase enabled, response even
mentioning the duplicate's filename) the duplicate record ends with
destination `_Duplicates`, confidence High and source Hash. -/
theorem C2_duplicate_destination_invariant_witness :
    (demoDupOut ∈ classifierRun demoOpts demoScan demoResponses ∧
      demoDupOut.is_duplicate = true) ∧
    (demoDupOut.destination = "_Duplicates" ∧ demoDupOut.confidence = Confidence.high ∧
      demoDupOut.source = ClassificationSource.hash) :=
  have hrun : classifierRun demoOpts demoScan demoResponses = [demoUnsortedOut, demoDupOut] := by
    decide
  have hmem : demoDupOut ∈ classifierRun demoOpts demoScan demoResponses := by
    rw [hrun]
    exact List.mem_cons_of_mem _ (List.mem_cons_self _ _)
  ⟨⟨hmem, by decide⟩,
   C2_duplicate_destination_invariant demoOpts demoScan demoResponses demoDupOut
     hmem (by decide)⟩

lemma find?_some_first {α : Type} (p : α → Bool) :
    ∀ (l : List α) (a : α), l.find? p = some a →
      ∃ (i : Nat) (hi : i < l.length), l.get ⟨i, hi⟩ = a ∧ p a = true ∧
        ∀ (j : Nat) (hj : j < l.length), j < i → p (l.get ⟨j, hj⟩) = false := by
  intro l
  induction l with
  | nil => intro a h; cases h
  | cons x xs ih =>
    intro a h
    cases hpx : p x with
    | true =>
      rw [List.find?_cons_of_pos xs hpx] at h
      cases h
      exact ⟨0, by simp, by simp, hpx, fun j hj hlt => by omega⟩
    | false =>
      rw [List.find?_cons_of_neg xs (by simp [hpx])] at h
      obtain ⟨i, hi, hget, hpa, hmin⟩ := ih a h
      refine ⟨i + 1, by simpa using Nat.succ_lt_succ hi, by simpa using hget, hpa, ?_⟩
      intro j hj hlt
      match j with
      | 0 => simpa using hpx
      | j2 + 1 =>
        have := hmin j2 (by simpa using hj) (by omega)
        simpa using this

lemma classifyFromKeywords_match (f : FileInfo) (cat : String × List String)
    (h : photoCategories.find? (catMatches f) = some cat) :
    classifyFromKeywords f =
      { f with destination := "Photos/" ++ cat.1 ++ "/" ++ yearOf f,
               confidence := Confidence.high,
               source := ClassificationSource.keywords,
               reasoning := "From keywords: " ++ String.intercalate ", " f.keywords } := by
  unfold classifyFromKeywords
  rw [h]

lemma classifyFromKeywords_nomatch (f : FileInfo)
    (h : photoCategories.find? (catMatches f) = none) :
    classifyFromKeywords f =
      { f with destination := "Photos/General/" ++ yearOf f,
               confidence := Confidence.medium,
               source := ClassificationSource.keywords,
               reasoning := "Has keywords: " ++ String.intercalate ", " f.keywords } := by
  unfold classifyFromKeywords
  rw [h]

/-- A record whose single keyword is `Birds`: `bird` occurs in it as a
substring but is not equal to it. -/
def birdsRec : FileInfo :=
  { path := "/src/b1.jpg", name := "b1.jpg", keywords := ["Birds"], modified := 2023 }

/-- C3 counterexample: the claim says keyword matching is case-insensitive
SUBSTRING matching.  On the record with keyword list `["Birds"]` the
substring reading (modelled by `classifyFromKeywordsSpec`, from the spec's
words) matches the Wildlife category keyword `bird` and would classify to
`Photos/Wildlife/2023` with confidence High, but the code
(`classifyFromKeywords`, whose test is exact membership of a category
keyword among the lowercased record keywords) matches no category and
assigns `Photos/General/2023` with confidence Medium. -/
theorem C3_keyword_substring_counterexample :
    (classifyFromKeywords birdsRec).destination = "Photos/General/2023" ∧
    (classifyFromKeywords birdsRec).confidence = Confidence.medium ∧
    (classifyFromKeywordsSpec birdsRec).destination = "Photos/Wildlife/2023" ∧
    (classifyFromKeywordsSpec birdsRec).confidence = Confidence.high ∧
    (∀ cat ∈ photoCategories, catMatches birdsRec cat = false) ∧
    catMatchesSpec birdsRec ("Wildlife",
      ["wildlife", "bird", "eagle", "hawk", "owl", "bear", "deer", "fox", "animal"]) = true ∧
    classifyFromKeywords birdsRec ≠ classifyFromKeywordsSpec birdsRec := by
  decide

/-- C3 (amended): for every non-duplicate record with a non-empty keyword
list classified under trust-level Trust, the classifier matches the
keywords against the fixed taxonomy using case-insensitive EXACT matching
(a category keyword must equal one of the record's lowercased keywords);
the first matching category in declared order determines the destination
`Photos/<category>/<year>` with confidence High and source Keywords, and if
the keywords match no category the record goes to `Photos/General/<year>`
with confidence Medium. -/
theorem C3_keyword_classification_amended (opts : ClassifierOptions) (f : FileInfo)
    (hd : f.is_duplicate = false) (hk : f.keywords ≠ [])
    (ht : opts.trust_level = TrustLevel.trust) :
    (classifyRecord opts f).1 = classifyFromKeywords f ∧
    ((∃ (i : Nat) (hi : i < photoCategories.length),
        catMatches f (photoCategories.get ⟨i, hi⟩) = true ∧
        (∀ (j : Nat) (hj : j < photoCategories.length), j < i →
          catMatches f (photoCategories.get ⟨j, hj⟩) = false) ∧
        (classifyFromKeywords f).destination =
          "Photos/" ++ (photoCategories.get ⟨i, hi⟩).1 ++ "/" ++ yearOf f ∧
        (classifyFromKeywords f).confidence = Confidence.high ∧
        (classifyFromKeywords f).source = ClassificationSource.keywords) ∨
     ((∀ cat ∈ photoCategories, catMatches f cat = false) ∧
      (classifyFromKeywords f).destination = "Photos/General/" ++ yearOf f ∧
      (classifyFromKeywords f).confidence = Confidence.medium ∧
      (classifyFromKeywords f).source = ClassificationSource.keywords)) := by
  constructor
  · unfold classifyRecord
    rw [if_neg (by simp [hd]), if_pos ⟨hk, ht⟩]
  · cases hfind : photoCategories.find? (catMatches f) with
    | some cat =>
      left
      obtain ⟨i, hi, hget, hpa, hmin⟩ := find?_some_first (catMatches f) photoCategories cat hfind
      refine ⟨i, hi, by rw [hget]; exact hpa, hmin, ?_, ?_, ?_⟩
      · rw [classifyFromKeywords_match f cat hfind, hget]
      · rw [classifyFromKeywords_match f cat hfind]
      · rw [classifyFromKeywords_match f cat hfind]
    | none =>
      right
      refine ⟨fun cat hcat => ?_, ?_, ?_, ?_⟩
      · have := List.find?_eq_none.mp hfind cat hcat
        simpa using this
      all_goals rw [classifyFromKeywords_nomatch f hfind]

/-- A record with the single keyword `wedding` under trust-level Trust. -/
def weddingRec : FileInfo :=
  { path := "/src/w1.jpg", name := "w1.jpg", keywords := ["wedding"], modified := 2023 }

/-- Witness for the amended C3: the keyword `wedding` exactly matches the
Weddings category, giving destination `Photos/Weddings/2023` with
confidence High. -/
theorem C3_keyword_classification_amended_witness :
    (classifyRecord demoOpts weddingRec).1 = classifyFromKeywords weddingRec ∧
    (classifyFromKeywords weddingRec).destination = "Photos/Weddings/2023" ∧
    (classifyFromKeywords weddingRec).confidence = Confidence.high :=
  ⟨(C3_keyword_classification_amended demoOpts weddingRec
      (by decide) (by decide) (by decide)).1,
   by decide, by decide⟩

lemma ruleMatches_ext (f : FileInfo) (r : Rule) (hcn : r.check_name = false)
    (alts : List String) (hp : r.pattern = RulePattern.extAlts alts) :
    ruleMatches f r = alts.any (fun a => endsWithStr (lowerStr f.extension) ("." ++ a)) := by
  unfold ruleMatches
  rw [hp]
  simp [hcn]

/-- C4: for every record reaching the rule-table stage, the first rule in
the fixed ordered rule list whose pattern matches (the extension, or the
lowercased filename for the name-target rule) determines the destination —
with the `{year}` token of the template replaced by the record's
modified-time year — at confidence High with source Rule; when no rule
matches the stage assigns nothing.  In particular a `.pdf` record with
modified-year 2023 and no keywords reaching the pipeline classifies to
`Documents/PDF/2023`. -/
theorem C4_rule_table_first_match (f : FileInfo) :
    ((∀ r ∈ buildRules, ruleMatches f r = false) → classifyByRules f = none) ∧
    (∀ (i : Nat) (hi : i < buildRules.length),
      ruleMatches f (buildRules.get ⟨i, hi⟩) = true →
      (∀ (j : Nat) (hj : j < buildRules.length), j < i →
        ruleMatches f (buildRules.get ⟨j, hj⟩) = false) →
      classifyByRules f =
        some { f with
                destination := strReplace (buildRules.get ⟨i, hi⟩).dest "{year}" (yearOf f),
                confidence := Confidence.high,
                source := ClassificationSource.rule,
                reasoning := "Matched rule \x27" ++ (buildRules.get ⟨i, hi⟩).name ++ "\x27" }) ∧
    (∀ opts : ClassifierOptions, f.is_duplicate = false → f.keywords = [] →
      f.extension = ".pdf" → f.modified = 2023 →
      (classifyRecord opts f).1.destination = "Documents/PDF/2023" ∧
      (classifyRecord opts f).1.confidence = Confidence.high ∧
      (classifyRecord opts f).1.source = ClassificationSource.rule) := by
  have hpart2 : ∀ (i : Nat) (hi : i < buildRules.length),
      ruleMatches f (buildRules.get ⟨i, hi⟩) = true →
      (∀ (j : Nat) (hj : j < buildRules.length), j < i →
        ruleMatches f (buildRules.get ⟨j, hj⟩) = false) →
      classifyByRules f =
        some { f with
                destination := strReplace (buildRules.get ⟨i, hi⟩).dest "{year}" (yearOf f),
                confidence := Confidence.high,
                source := ClassificationSource.rule,
                reasoning := "Matched rule \x27" ++ (buildRules.get ⟨i, hi⟩).name ++ "\x27" } := by
    intro i hi hmatch hmin
    have hfind : buildRules.find? (ruleMatches f) = some (buildRules.get ⟨i, hi⟩) :=
      find?_eq_get_of_first (ruleMatches f) buildRules i hi hmatch hmin
    unfold classifyByRules
    rw [hfind]
  refine ⟨?_, hpart2, ?_⟩
  · intro h
    unfold classifyByRules
    rw [List.find?_eq_none.mpr (fun r hr => by simp [h r hr])]
  · intro opts hd hkw hext hmod
    have hr2 : ruleMatches f (buildRules.get ⟨2, by decide⟩) = true := by
      rw [ruleMatches_ext f _ rfl ["pdf"] rfl, hext]
      decide
    have h0 : ruleMatches f (buildRules.get ⟨0, by decide⟩) = false := by
      rw [ruleMatches_ext f _ rfl ["dmg", "iso", "img"] rfl, hext]
      decide
    have h1 : ruleMatches f (buildRules.get ⟨1, by decide⟩) = false := by
      rw [ruleMatches_ext f _ rfl ["zip", "rar", "7z", "tar", "gz"] rfl, hext]
      decide
    have hmin2 : ∀ (j : Nat) (hj : j < buildRules.length), j < 2 →
        ruleMatches f (buildRules.get ⟨j, hj⟩) = false := by
      intro j hj hlt
      match j with
      | 0 => exact h0
      | 1 => exact h1
      | j + 2 => omega
    have hcbr := hpart2 2 (by decide) hr2 hmin2
    have hyear : yearOf f = "2023" := by
      unfold yearOf
      rw [hmod]
      decide
    rw [hyear] at hcbr
    have hdest : strReplace (buildRules.get ⟨2, by decide⟩).dest "{year}" "2023" =
        "Documents/PDF/2023" := by decide
    rw [hdest] at hcbr
    unfold classifyRecord
    rw [if_neg (by simp [hd]), if_neg (by simp [hkw])]
    simp [hcbr]

/-- A `.pdf` record with modified-year 2023 and no keywords. -/
def pdfRec : FileInfo :=
  { path := "/docs/report.pdf", name := "report.pdf", extension := ".pdf", modified := 2023 }

/-- Witness for C4: the concrete `.pdf` record classifies through the rule
table to `Documents/PDF/2023`, confidence High, source Rule. -/
theorem C4_rule_table_first_match_witness :
    (classifyRecord demoOpts pdfRec).1.destination = "Documents/PDF/2023" ∧
    (classifyRecord demoOpts pdfRec).1.confidence = Confidence.high ∧
    (classifyRecord demoOpts pdfRec).1.source = ClassificationSource.rule :=
  (C4_rule_table_first_match pdfRec).2.2 demoOpts (by decide) (by decide) (by decide) (by decide)

/-- Photo-mode options with the remote phase enabled. -/
def photoLlmOpts : ClassifierOptions :=
  { trust_level := TrustLevel.trust, use_llm := true, photo_mode := true }

/-- A photo record (no keywords, `.jpg` matches no rule, name without a
screenshot variant). -/
def jpgPhoto : FileInfo :=
  { path := "/src/IMG_1.jpg", name := "IMG_1.jpg", extension := ".jpg",
    modified := 2024, is_photo := true }

/-- C5 counterexample: the claim says an uncategorized photo (confidence
Low) is flagged as eligible for remote fallback, i.e. included in the
unresolved batch when remote classification is enabled.  In the code only
the final fallback branch appends to `unclassified`: with remote
classification enabled, the uncategorized photo gets
`Photos/Uncategorized/<year>` at confidence Low but the unresolved batch
stays empty. -/
theorem C5_photo_remote_flag_counterexample :
    (classifyRecord photoLlmOpts jpgPhoto).1.destination = "Photos/Uncategorized/2024" ∧
    (classifyRecord photoLlmOpts jpgPhoto).1.confidence = Confidence.low ∧
    (classifyRecord photoLlmOpts jpgPhoto).1.source = ClassificationSource.vision ∧
    photoLlmOpts.use_llm = true ∧
    (classifyRecord photoLlmOpts jpgPhoto).2 = false ∧
    unclassifiedOf photoLlmOpts [jpgPhoto] = [] := by
  decide

/-- C5 (amended): for every record that is marked photo, classified with
photo-mode enabled and not caught by an earlier pipeline stage: a filename
containing a screenshot variant gives the Screenshots bucket with
confidence High; otherwise the record gets the uncategorized photo bucket
with confidence Low and source Vision — and in either case it is NOT added
to the unresolved remote-fallback batch (only records reaching the final
fallback stage are). -/
theorem C5_photo_heuristic_amended (opts : ClassifierOptions) (f : FileInfo)
    (hd : f.is_duplicate = false)
    (hkt : ¬(f.keywords ≠ [] ∧ opts.trust_level = TrustLevel.trust))
    (hr : classifyByRules f = none)
    (hp : f.is_photo = true) (hpm : opts.photo_mode = true) :
    (classifyRecord opts f).1 = classifyPhoto f ∧
    (classifyRecord opts f).2 = false ∧
    (screenshotVariants.any (fun v => isSubList v.data (lowerStr f.name).data) = true →
      (classifyPhoto f).destination = "Photos/Screenshots/" ++ yearOf f ∧
      (classifyPhoto f).confidence = Confidence.high ∧
      (classifyPhoto f).source = ClassificationSource.rule) ∧
    (screenshotVariants.any (fun v => isSubList v.data (lowerStr f.name).data) = false →
      (classifyPhoto f).destination = "Photos/Uncategorized/" ++ yearOf f ∧
      (classifyPhoto f).confidence = Confidence.low ∧
      (classifyPhoto f).source = ClassificationSource.vision) := by
  have hcr : classifyRecord opts f = (classifyPhoto f, false) := by
    unfold classifyRecord
    rw [if_neg (by simp [hd]), if_neg hkt]
    simp only [hr]
    rw [if_pos ⟨hp, hpm⟩]
  refine ⟨by rw [hcr], by rw [hcr], ?_, ?_⟩
  · intro hss
    unfold classifyPhoto
    rw [if_pos hss]
    exact ⟨rfl, rfl, rfl⟩
  · intro hss
    unfold classifyPhoto
    rw [if_neg (by simp [hss])]
    exact ⟨rfl, rfl, rfl⟩

/-- A photo whose name contains the `screen shot` variant (and which no
rule catches: the rule-table screenshot rule only matches the compact
spelling). -/
def screenShotRec : FileInfo :=
  { path := "/src/screen shot 1.png", name := "screen shot 1.png", extension := ".png",
    modified := 2024, is_photo := true }

/-- Witness for the amended C5: the `screen shot` photo goes to the
Screenshots bucket and is not added to the remote batch, and the plain
photo goes to the uncategorized bucket. -/
theorem C5_photo_heuristic_amended_witness :
    (classifyRecord photoLlmOpts screenShotRec).1 = classifyPhoto screenShotRec ∧
    (classifyRecord photoLlmOpts screenShotRec).2 = false ∧
    (classifyPhoto screenShotRec).destination = "Photos/Screenshots/2024" ∧
    (classifyPhoto jpgPhoto).destination = "Photos/Uncategorized/2024" :=
  ⟨(C5_photo_heuristic_amended photoLlmOpts screenShotRec
      (by decide) (by decide) (by decide) (by decide) (by decide)).1,
   (C5_photo_heuristic_amended photoLlmOpts screenShotRec
      (by decide) (by decide) (by decide) (by decide) (by decide)).2.1,
   by decide, by decide⟩

lemma applyLlmList_get? (r : Nat → Option LlmItems) :
    ∀ (l : List FileInfo) (k i : Nat),
      (applyLlmList r k l).get? i = (l.get? i).map (llmUpdate (r ((k + i) / 20))) := by
  intro l
  induction l with
  | nil => intro k i; simp [applyLlmList]
  | cons f rest ih =>
    intro k i
    match i with
    | 0 => simp [applyLlmList]
    | j + 1 =>
      have := ih (k + 1) j
      simpa [applyLlmList, Nat.add_assoc, Nat.add_comm 1 j] using this

/-- C6: every remote-classification batch submitted by the run loop holds
at most 20 records and contains the record it classifies; a record whose
batch call failed (transport, timeout or parse failure — `r (i/20) = none`)
or whose filename has no well-formed entry in its batch's parsed response
keeps exactly its pre-batch fallback classification. -/
theorem C6_remote_batch_fallback (uncls : List FileInfo) (r : Nat → Option LlmItems)
    (i : Nat) (hi : i < uncls.length)
    (habs : ∀ items : LlmItems, r (i / 20) = some items →
      clsGet items (uncls.get ⟨i, hi⟩).name = none) :
    (batchOf uncls (i / 20)).length ≤ 20 ∧
    uncls.get ⟨i, hi⟩ ∈ batchOf uncls (i / 20) ∧
    (applyLlmList r 0 uncls).get? i = some (uncls.get ⟨i, hi⟩) := by
  refine ⟨?_, ?_, ?_⟩
  · simp only [batchOf, List.length_take]
    exact min_le_left _ _
  · have hmod : i % 20 < 20 := Nat.mod_lt _ (by omega)
    have hidx : 20 * (i / 20) + i % 20 = i := Nat.div_add_mod i 20
    have hget : (batchOf uncls (i / 20)).get? (i % 20) = some (uncls.get ⟨i, hi⟩) := by
      unfold batchOf
      rw [List.get?_take hmod, List.get?_drop, hidx]
      exact List.get?_eq_get hi
    exact List.get?_mem hget
  · rw [applyLlmList_get? r uncls 0 i]
    simp only [Nat.zero_add]
    rw [List.get?_eq_get hi]
    cases hr : r (i / 20) with
    | none => simp [llmUpdate]
    | some items =>
      have hcg := habs items hr
      simp only [Option.map_some']
      simp only [llmUpdate, hcg]

/-- Two fallback-classified records awaiting the remote phase. -/
def demoUncls : List FileInfo :=
  [{ path := "/src/a.xyz", name := "a.xyz", destination := "Unsorted/2024",
     confidence := Confidence.low, source := ClassificationSource.rule,
     reasoning := "No matching rule found" },
   { path := "/src/b.xyz", name := "b.xyz", destination := "Unsorted/2024",
     confidence := Confidence.low, source := ClassificationSource.rule,
     reasoning := "No matching rule found" }]

/-- A parsed response with one malformed entry and one well-formed entry
naming only the second record. -/
def demoItems2 : LlmItems :=
  [none, some { filename := "b.xyz", destination := "Documents/B/2024" }]

/-- A response oracle returning `demoItems2` for every batch. -/
def demoResp2 : Nat → Option LlmItems := fun _ => some demoItems2

/-- Witness for C6: the first record's filename is absent from the
response, so the remote phase leaves it exactly at its fallback
classification; its batch has at most 20 records and contains it. -/
theorem C6_remote_batch_fallback_witness :
    (batchOf demoUncls 0).length ≤ 20 ∧
    demoUncls.get ⟨0, by decide⟩ ∈ batchOf demoUncls 0 ∧
    (applyLlmList demoResp2 0 demoUncls).get? 0 = some (demoUncls.get ⟨0, by decide⟩) :=
  C6_remote_batch_fallback demoUncls demoResp2 0 (by decide)
    (fun items h => (Option.some.inj h) ▸
      (by decide : clsGet demoItems2 (demoUncls.get ⟨0, by decide⟩).name = none))

lemma resolveLoop_spec (ex : List String) (parent stem sfx : String) :
    ∀ (fuel k : Nat),
      (∃ d, d < fuel ∧ candidatePath parent stem sfx (k + d) ∉ ex) →
      ∃ N, k ≤ N ∧
        resolveLoop ex parent stem sfx fuel k = candidatePath parent stem sfx N ∧
        candidatePath parent stem sfx N ∉ ex ∧
        ∀ j, k ≤ j → j < N → candidatePath parent stem sfx j ∈ ex := by
  intro fuel
  induction fuel with
  | zero =>
    intro k h
    obtain ⟨d, hd, _⟩ := h
    omega
  | succ fuel ih =>
    intro k h
    obtain ⟨d, hd, hdfree⟩ := h
    by_cases hk : candidatePath parent stem sfx k ∈ ex
    · have hd0 : d ≠ 0 := by
        intro h0
        subst h0
        exact hdfree (by simpa using hk)
      obtain ⟨d2, rfl⟩ : ∃ d2, d = d2 + 1 := ⟨d - 1, by omega⟩
      have hdfree2 : candidatePath parent stem sfx ((k + 1) + d2) ∉ ex := by
        have : (k + 1) + d2 = k + (d2 + 1) := by omega
        rw [this]
        exact hdfree
      obtain ⟨N, hkN, heq, hfr, hall⟩ := ih (k + 1) ⟨d2, by omega, hdfree2⟩
      refine ⟨N, by omega, ?_, hfr, ?_⟩
      · unfold resolveLoop
        rw [if_pos hk]
        exact heq
      · intro j hj hjN
        by_cases hjk : j = k
        · rw [hjk]
          exact hk
        · exact hall j (by omega) hjN
    · refine ⟨k, Nat.le_refl k, ?_, hk, ?_⟩
      · unfold resolveLoop
        rw [if_neg hk]
      · intro j hj hjN
        omega

/-- C7: for every executor move whose destination path already exists (in
the existing-path set `ex`), the conflict loop renames the incoming file to
`<stem>_<N><suffix>`, with N the least counter from 1 whose candidate path
does not exist — every earlier candidate exists — and the chosen path does
not exist, so no already-existing file is modified or overwritten.
(`fuel` bounds the modelled iterations of the source's unbounded `while`
loop; the hypothesis provides a free candidate within it, which any finite
filesystem does.) -/
theorem C7_executor_conflict_rename (ex : List String) (parent nm : String) (fuel : Nat)
    (hex : parent ++ "/" ++ nm ∈ ex)
    (hfree : ∃ d, d < fuel ∧
      candidatePath parent (splitExt nm).1 (splitExt nm).2 (1 + d) ∉ ex) :
    ∃ N, 1 ≤ N ∧
      resolveDest ex parent nm fuel = candidatePath parent (splitExt nm).1 (splitExt nm).2 N ∧
      candidatePath parent (splitExt nm).1 (splitExt nm).2 N ∉ ex ∧
      (∀ j, 1 ≤ j → j < N → candidatePath parent (splitExt nm).1 (splitExt nm).2 j ∈ ex) ∧
      resolveDest ex parent nm fuel ∉ ex := by
  obtain ⟨N, h1, heq, hfr, hall⟩ :=
    resolveLoop_spec ex parent (splitExt nm).1 (splitExt nm).2 fuel 1 hfree
  have hres : resolveDest ex parent nm fuel =
      resolveLoop ex parent (splitExt nm).1 (splitExt nm).2 fuel 1 := by
    unfold resolveDest
    rw [if_pos hex]
  refine ⟨N, h1, ?_, hfr, hall, ?_⟩
  · rw [hres, heq]
  · rw [hres, heq]
    exact hfr

/-- Witness for C7: copying into a target already containing `report.txt`
resolves the collision to `report_1.txt`, which does not collide with any
existing path — the original `report.txt` is untouched. -/
theorem C7_executor_conflict_rename_witness :
    resolveDest ["t/report.txt"] "t" "report.txt" 2 = "t/report_1.txt" ∧
    "t/report_1.txt" ∉ ["t/report.txt"] ∧
    (∃ N, 1 ≤ N ∧
      resolveDest ["t/report.txt"] "t" "report.txt" 2 =
        candidatePath "t" (splitExt "report.txt").1 (splitExt "report.txt").2 N ∧
      candidatePath "t" (splitExt "report.txt").1 (splitExt "report.txt").2 N ∉
        ["t/report.txt"] ∧
      (∀ j, 1 ≤ j → j < N →
        candidatePath "t" (splitExt "report.txt").1 (splitExt "report.txt").2 j ∈
          ["t/report.txt"]) ∧
      resolveDest ["t/report.txt"] "t" "report.txt" 2 ∉ ["t/report.txt"]) :=
  ⟨by decide, by decide,
   C7_executor_conflict_rename ["t/report.txt"] "t" "report.txt" 2
     (by decide) ⟨0, by decide, by decide⟩⟩

end FOP
